import Mathlib

/-!
Verification of the junodb load-test engine core (`test/drv/junoload/tsteng.go`)
via a shallow embedding in Lean.

Conventions of the embedding:
* Go `int` counters that are provably non-negative in every reachable state
  (`numKeys`, `nextDelete`, `currGet`, offsets) are modelled as `Nat`.
* Go `int64` / `time.Duration` arithmetic is modelled as `Int` with explicit
  wrapping (`int64Wrap`) where overflow can occur, and `Int.tdiv` for Go's
  truncated integer division.
* Randomness is modelled as oracle inputs: `rand.Intn(sz)` becomes an
  arbitrary natural `draw` reduced `% sz`, and the skew sampler `expRand`
  becomes a function parameter `sampler` applied to the range it is invoked on.
* The `for !cond { ... }` retry loops of `RecordStore.Get` / `RecordStore.Take`
  are embedded with explicit fuel `records.length + 1`, which dominates the
  number of iterations: every iteration either returns or removes one record
  from the dynamic collection, and the preloaded branch returns immediately.
* A Go `(rec, err)` pair where callers only use `rec` when `err == nil` is
  modelled as `Option Record` (`none` = the error return).
-/

namespace Junoload

/-- `const MaxDeletes = 10000` (tsteng.go line 46). -/
def MaxDeletes : Nat := 10000

/-- `binary.BigEndian.PutUint32`: the four big-endian bytes of a 32-bit value
(Go `byte(v >> 24)` etc., i.e. divisions and `% 256` truncations). -/
def putUint32BE (v : Nat) : List Nat :=
  [v / 16777216 % 256, v / 65536 % 256, v / 256 % 256, v % 256]

/-- Two's-complement wrap of an integer into the Go `int64` range. -/
def int64Wrap (x : Int) : Int :=
  Int.emod (x + 9223372036854775808) 18446744073709551616 - 9223372036854775808

/-- The scrambled first word of `NewRandomKey`:
`uint32(((int64(s+1)*25214903917 + 11) >> 5) & 0x7fffffff)`.
`>> 5` on `int64` is an arithmetic (floor) shift, hence `Int.fdiv`;
masking with `0x7fffffff` keeps the low 31 bits, hence `Int.emod` by `2^31`
(the result is `< 2^31`, so the final `uint32` conversion is the identity). -/
def rScramble (s : Nat) : Nat :=
  (Int.emod (Int.fdiv (int64Wrap (((s : Int) + 1) * 25214903917 + 11)) 32)
    2147483648).toNat

/-- `NewRandomKey` (tsteng.go lines 87-95): a 16-byte key holding the
scrambled word in bytes 0-3, `uint32(s)` (the raw index, truncated to 32
bits as Go's conversion does) in bytes 4-7, zero bytes 8-11, and
`PutUint32(key[12:], 0xff)` giving bytes 12-15. -/
def NewRandomKey (s : Nat) : List Nat :=
  putUint32BE (rScramble s) ++ putUint32BE (s % 4294967296) ++
    [0, 0, 0, 0] ++ putUint32BE 255

/-- Decode bytes 4-7 of a key as a big-endian 32-bit value (the stored index). -/
def keyIndex (key : List Nat) : Nat :=
  match key.drop 4 with
  | b0 :: b1 :: b2 :: b3 :: _ => ((b0 * 256 + b1) * 256 + b2) * 256 + b3
  | _ => 0

/-- The client context carried by a record (`client.IContext` is external to
the repository; per the spec it exposes a creation time and a TTL, compared
against the current time). -/
structure RecCtx where
  creationTime : Nat
  timeToLive : Nat
  deriving DecidableEq, Repr

/-- `Record` (tsteng.go lines 50-53): a key and an optional client context. -/
structure Record where
  key : List Nat
  ctx : Option RecCtx
  deriving DecidableEq, Repr

instance : Inhabited Record := ⟨⟨[], none⟩⟩

/-- `RecordStore` (tsteng.go lines 55-64). -/
structure RecordStore where
  records : List Record
  numKeys : Nat
  currGet : Nat
  nextDelete : Nat
  offsetDel : Nat
  offsetGet : Nat
  LastDelete : Bool
  deriving DecidableEq, Repr

/-- `Record.isExpired` (tsteng.go lines 122-128): a record with no context is
never expired; otherwise expired iff `creationTime + timeToLive < now`. -/
def Record.isExpired (r : Record) (now : Nat) : Bool :=
  match r.ctx with
  | none => false
  | some c => decide (c.creationTime + c.timeToLive < now)

/-- `RecordStore.Add` (tsteng.go lines 130-135): append in dynamic mode,
no-op once `numKeys > 0`. -/
def RecordStore.Add (s : RecordStore) (rec : Record) : RecordStore :=
  if 0 < s.numKeys then s else { s with records := s.records ++ [rec] }

/-- `RecordStore.empty` (tsteng.go lines 195-197). -/
def RecordStore.empty (s : RecordStore) : Bool :=
  s.records.isEmpty && s.numKeys == 0

/-- `RecordStore.endOfDelete` (tsteng.go lines 199-202). -/
def RecordStore.endOfDelete (s : RecordStore) : Bool :=
  decide (0 < s.numKeys) &&
    (decide (s.numKeys ≤ s.nextDelete) || decide (MaxDeletes ≤ s.nextDelete))

/-- `RecordStore.takeRecord` (tsteng.go lines 142-164). Preloaded mode:
synthesize the key at `offsetDel + nextDelete`, fail if already
delete-exhausted, otherwise advance `nextDelete`. Dynamic mode: remove and
return a uniformly drawn record (`draw` is the `rand.Intn(sz)` oracle,
reduced `% sz`). -/
def RecordStore.takeRecord (s : RecordStore) (draw : Nat) :
    Option Record × RecordStore :=
  if 0 < s.numKeys then
    if s.endOfDelete then (none, s)
    else (some ⟨NewRandomKey (s.offsetDel + s.nextDelete), none⟩,
          { s with nextDelete := s.nextDelete + 1 })
  else
    let sz := s.records.length
    if sz = 0 then (none, s)
    else
      let index := draw % sz
      (some (s.records.getD index default),
       { s with records := s.records.eraseIdx index })

/-- The range size handed to the skew sampler by `RecordStore.getRecord`
(tsteng.go lines 168-171): `count := numKeys`, narrowed to `numKeys >> 2`
when `numKeys >= MaxDeletes`. -/
def RecordStore.readCount (s : RecordStore) : Nat :=
  if MaxDeletes ≤ s.numKeys then s.numKeys >>> 2 else s.numKeys

/-- `RecordStore.getRecord` (tsteng.go lines 166-193). Preloaded mode: sample
`k := sampler (readCount s)` (the `expRand(count)` call), record it in
`currGet`, synthesize the key at `offsetGet + k`; never fails and removes
nothing. Dynamic mode: uniformly draw a record; if it is expired, remove it
and fail, otherwise return it without removal. -/
def RecordStore.getRecord (s : RecordStore) (sampler : Nat → Nat)
    (draw now : Nat) : Option Record × RecordStore :=
  if 0 < s.numKeys then
    let k := sampler s.readCount
    (some ⟨NewRandomKey (s.offsetGet + k), none⟩, { s with currGet := k })
  else
    let sz := s.records.length
    if sz = 0 then (none, s)
    else
      let index := draw % sz
      let r := s.records.getD index default
      if r.isExpired now then
        (none, { s with records := s.records.eraseIdx index })
      else (some r, s)

/-- The `for !s.empty()` retry loop of `RecordStore.Get` (tsteng.go lines
204-213), with explicit fuel. -/
def getLoop (sampler : Nat → Nat) (now : Nat) :
    Nat → RecordStore → List Nat → Option Record × RecordStore
  | 0, s, _ => (none, s)
  | fuel + 1, s, rng =>
    if s.empty then (none, s)
    else
      match s.getRecord sampler rng.headI now with
      | (some r, t) => (some r, t)
      | (none, t) => getLoop sampler now fuel t rng.tail

/-- `RecordStore.Get` (tsteng.go lines 204-213): retry `getRecord` until a
record is returned or the store is empty. `records.length + 1` fuel dominates
the loop: each failing iteration removes one record. -/
def RecordStore.Get (s : RecordStore) (sampler : Nat → Nat) (now : Nat)
    (rng : List Nat) : Option Record × RecordStore :=
  getLoop sampler now (s.records.length + 1) s rng

/-- The `for !s.empty() && !s.endOfDelete()` loop of `RecordStore.Take`
(tsteng.go lines 215-227), with explicit fuel: on a non-error, non-expired
record, return it, setting `LastDelete` when this call made the store
delete-exhausted; otherwise loop. -/
def takeLoop (now : Nat) :
    Nat → RecordStore → List Nat → Option Record × RecordStore
  | 0, s, _ => (none, s)
  | fuel + 1, s, rng =>
    if s.empty || s.endOfDelete then (none, s)
    else
      match s.takeRecord rng.headI with
      | (some r, t) =>
        if r.isExpired now then takeLoop now fuel t rng.tail
        else if t.endOfDelete then (some r, { t with LastDelete := true })
        else (some r, t)
      | (none, t) => takeLoop now fuel t rng.tail

/-- `RecordStore.Take` (tsteng.go lines 215-227). A `none` result is the
`"no unexpired record"` error, the only error this function returns. -/
def RecordStore.Take (s : RecordStore) (now : Nat) (rng : List Nat) :
    Option Record × RecordStore :=
  takeLoop now (s.records.length + 1) s rng

/-- The `for i := 0; i < count; i++` body of `TestEngine.restoreData`
(tsteng.go lines 247-261), collecting the keys it re-creates in order. -/
def restoreLoop (off : Nat) : Nat → List (List Nat)
  | 0 => []
  | n + 1 => restoreLoop off n ++ [NewRandomKey (off + n)]

/-- `TestEngine.restoreData` (tsteng.go lines 238-262), abstracted to the list
of keys it issues `client.Create` calls for: nothing when `numKeys <= 0` or
`nextDelete <= 0`, otherwise one create per `i` in `[0, nextDelete)` at the
synthesized key `offsetDel + i`. -/
def restoreKeys (s : RecordStore) : List (List Nat) :=
  if s.numKeys = 0 || s.nextDelete = 0 then []
  else restoreLoop s.offsetDel s.nextDelete

/-- `kNumRequestTypes` (tsteng.go line 43): the five request types
Create, Get, Update, Set, Destroy are `0..4`, so the count is `5`. -/
def kNumRequestTypes : Nat := 5

/-- Length of the dispatch table built by `TestEngine.Init` (tsteng.go line
230): `make([]InvokeFunc, kNumRequestTypes)`, all five slots filled. -/
def invokeFuncsLen : Nat := kNumRequestTypes

/-- Observable outcome of `TestEngine.invoke` (tsteng.go lines 418-429) on a
request type value. -/
inductive InvokeOutcome where
  /-- Dispatched to the (non-nil) handler `invokeFuncs[t]`. -/
  | handled (t : Nat)
  /-- `glog.Exitf("not supported request type : %d", t)`: controlled
  process-level abort. -/
  | exitUnsupported
  /-- Go runtime panic: `invokeFuncs[t]` with `t >= len(invokeFuncs)`
  (index out of range). -/
  | panicIndexOutOfRange
  deriving DecidableEq, Repr

/-- `TestEngine.invoke` (tsteng.go lines 418-429) after `Init`: the guard is
`t > kNumRequestTypes` (strict), then the table `invokeFuncs` of length
`kNumRequestTypes` is indexed with `t`. `t` ranges over the `uint8`-valued
`RequestType`. -/
def invoke (t : Nat) : InvokeOutcome :=
  if kNumRequestTypes < t then .exitUnsupported
  else if t < invokeFuncsLen then .handled t
  else .panicIndexOutOfRange

/-- `TestEngine.checkSpeedDelayIfNeeded` (tsteng.go lines 322-338), abstracted
to the nanoseconds slept (`0` = no sleep): with `num` requests recorded since
`stats.tmStart` and `elapsed = now - tmStart` nanoseconds, skip when
`num < 10`; otherwise `expectedDur := (1e9 ns / R) * num` using Go's
truncated `int64` division, and sleep `expectedDur - elapsed` when that is
positive. -/
def checkSpeedDelay (numReqPerSecond num elapsed : Int) : Int :=
  if num < 10 then 0
  else
    let expectedDur := Int.tdiv 1000000000 numReqPerSecond * num
    let delta := expectedDur - elapsed
    if 0 < delta then delta else 0

/-- Go's `int(x)` conversion from `float64`: truncation toward zero. -/
noncomputable def goTrunc (x : ℝ) : ℤ :=
  if 0 ≤ x then ⌊x⌋ else -⌊-x⌋

/-- `expRand` (tsteng.go lines 97-102) with the uniform draw
`m = rand.Intn(n)+1 ∈ [1, n]` made a parameter, and the `float64`
computation idealized over the reals:
`n - 1 - int(float64(n)*math.Log(m)/math.Log(n+1))`. -/
noncomputable def expRandZ (n m : Nat) : ℤ :=
  (n : ℤ) - 1 - goTrunc ((n : ℝ) * Real.log (m : ℝ) / Real.log ((n : ℝ) + 1))

/-- One event observed by the main loop of `TestEngine.Run`
(tsteng.go lines 264-320): either an executed-and-recorded operation with its
error status, or the cancellation signal on `chDone`. -/
inductive RunEv where
  /-- An operation that reached `stats.Put`; `failed` = its error was
  non-nil. -/
  | op (failed : Bool)
  /-- The `<-chDone` case: run `restoreData` and return. -/
  | cancel
  deriving DecidableEq, Repr

/-- Observable outcome of a `TestEngine.Run` execution. -/
structure RunOutcome where
  /-- Number of failures recorded into statistics. -/
  recFails : Nat
  /-- Run returned through the `errCount > 100` circuit breaker. -/
  aborted : Bool
  /-- `restoreData` was invoked (the cancellation path). -/
  restored : Bool
  deriving DecidableEq, Repr

/-- The error-handling skeleton of `TestEngine.Run` (tsteng.go lines 264-320):
process recorded operations in order; every failure is recorded; when the
store is preloaded (`numKeys > 0`) a failure also increments `errCount`
(which is never reset), and the run returns as soon as `errCount > 100` —
without calling `restoreData`. Cancellation runs `restoreData` and returns. -/
def runLoop (preloaded : Bool) : List RunEv → Nat → Nat → RunOutcome
  | [], _, rf => ⟨rf, false, false⟩
  | .cancel :: _, _, rf => ⟨rf, false, true⟩
  | .op failed :: rest, ec, rf =>
    let rf1 := if failed then rf + 1 else rf
    if failed && preloaded then
      if 100 < ec + 1 then ⟨rf1, true, false⟩
      else runLoop preloaded rest (ec + 1) rf1
    else runLoop preloaded rest ec rf1

/-- `TestEngine.Run` on a trace of events, starting with `errCount = 0`. -/
def RunGo (preloaded : Bool) (evs : List RunEv) : RunOutcome :=
  runLoop preloaded evs 0 0

/-- Modelled from the spec: the run-loop error handling as the claim states
it, with a CONSECUTIVE error counter that every successful operation resets
to zero (for comparison against `runLoop`, which never resets it). -/
def runLoopConsec (preloaded : Bool) : List RunEv → Nat → Nat → RunOutcome
  | [], _, rf => ⟨rf, false, false⟩
  | .cancel :: _, _, rf => ⟨rf, false, true⟩
  | .op failed :: rest, ec, rf =>
    let rf1 := if failed then rf + 1 else rf
    if failed && preloaded then
      if 100 < ec + 1 then ⟨rf1, true, false⟩
      else runLoopConsec preloaded rest (ec + 1) rf1
    else runLoopConsec preloaded rest 0 rf1

/-- The spec-modelled consecutive-counter run on a trace. -/
def RunConsec (preloaded : Bool) (evs : List RunEv) : RunOutcome :=
  runLoopConsec preloaded evs 0 0

/-- Number of failed operations in a trace. -/
def failCount (evs : List RunEv) : Nat :=
  evs.countP fun e => match e with | .op true => true | _ => false

/-- A freshly preloaded store: `numKeys = K > 0`, no explicit records, both
cursors at zero (tsteng.go lines 55-64 with the junoload setup). -/
def preloadStore (K offD offG : Nat) : RecordStore :=
  ⟨[], K, 0, 0, offD, offG, false⟩

/-- The store after `n` successive `Take` calls on a fresh preloaded store
(the delete oracle inputs are irrelevant in preloaded mode). -/
def takeN (K offD offG : Nat) : Nat → RecordStore
  | 0 => preloadStore K offD offG
  | n + 1 => ((takeN K offD offG n).Take 0 []).2

/-- The keys handed out by the first `n` `Take` calls on a fresh preloaded
store, in order (failed calls contribute nothing). -/
def takeKeysN (K offD offG : Nat) : Nat → List (List Nat)
  | 0 => []
  | n + 1 =>
    takeKeysN K offD offG n ++
      (((takeN K offD offG n).Take 0 []).1.map Record.key).toList

/-- One record-store operation issued by the engine, with its randomness
oracles (`sampler` stands for the `expRand` draw, `draw`/`rng` for the
`rand.Intn` draws). -/
inductive StoreOp where
  | add (r : Record)
  | get (sampler : Nat → Nat) (now : Nat) (rng : List Nat)
  | take (now : Nat) (rng : List Nat)

/-- Apply one operation to the store, keeping the resulting state. -/
def applyOp (s : RecordStore) : StoreOp → RecordStore
  | .add r => s.Add r
  | .get sampler now rng => (s.Get sampler now rng).2
  | .take now rng => (s.Take now rng).2

/-- The delete-cursor invariant: the store still has its original key count
and the cursor is within `min(numKeys, MaxDeletes)`. -/
def DelInv (N : Nat) (s : RecordStore) : Prop :=
  s.numKeys = N ∧ s.nextDelete ≤ min N MaxDeletes

/-- Bytes 4-7 of a synthesized key decode back to the (32-bit truncated)
index that was stored there. -/
theorem keyIndex_newRandomKey (s : Nat) :
    keyIndex (NewRandomKey s) = s % 4294967296 := by
  have h : s % 4294967296 < 4294967296 := Nat.mod_lt _ (by norm_num)
  simp only [NewRandomKey, putUint32BE, keyIndex, List.cons_append,
    List.nil_append, List.drop_succ_cons, List.drop_zero]
  omega

/-- C7 (confirmed): `NewRandomKey` is a pure function (determinism is
intrinsic to the embedding), always yields a 16-byte key, and is injective
on indices representable in 32 bits, because bytes 4-7 store the raw
index. -/
theorem newRandomKey_deterministic_injective :
    ∀ i j : Nat, i < 4294967296 → j < 4294967296 → i ≠ j →
      (NewRandomKey i).length = 16 ∧ NewRandomKey i ≠ NewRandomKey j := by
  intro i j hi hj hne
  constructor
  · simp [NewRandomKey, putUint32BE]
  · intro h
    have hk : keyIndex (NewRandomKey i) = keyIndex (NewRandomKey j) := by rw [h]
    rw [keyIndex_newRandomKey, keyIndex_newRandomKey, Nat.mod_eq_of_lt hi,
      Nat.mod_eq_of_lt hj] at hk
    exact hne hk

/-- Witness for C7 at the concrete indices 0 and 1. -/
theorem newRandomKey_deterministic_injective_witness :
    (0 : Nat) < 4294967296 ∧ (1 : Nat) < 4294967296 ∧
      (NewRandomKey 0).length = 16 ∧ NewRandomKey 0 ≠ NewRandomKey 1 := by
  have h := newRandomKey_deterministic_injective 0 1 (by decide) (by decide)
    (by decide)
  exact ⟨by decide, by decide, h.1, h.2⟩

/-- C2 (code_bug): the unsupported-type guard in `TestEngine.invoke` is
`t > kNumRequestTypes` (strict), so the value `t = kNumRequestTypes = 5`
— outside the known set `{0..4}` — slips past the guard and indexes the
five-slot dispatch table out of bounds (a Go runtime panic), instead of
reaching the controlled `glog.Exitf` unsupported-type abort the spec
describes. -/
theorem invoke_numRequestTypes_panics :
    invoke kNumRequestTypes = InvokeOutcome.panicIndexOutOfRange ∧
      invoke kNumRequestTypes ≠ InvokeOutcome.exitUnsupported := by
  decide

/-- C5 counterexample: for a preloaded store with `numKeys = MaxDeletes`
exactly (so `numKeys` does not exceed `MaxDeletes`), the code already
narrows the sampling range to the quarter `2500`, while the claim demands
the full range `10000`. -/
theorem readCount_at_maxDeletes_cex :
    (preloadStore MaxDeletes 0 0).numKeys ≤ MaxDeletes ∧
      (preloadStore MaxDeletes 0 0).readCount = 2500 ∧
      (preloadStore MaxDeletes 0 0).readCount ≠
        (preloadStore MaxDeletes 0 0).numKeys := by
  decide

/-- C5 (corrected): in preloaded mode a read samples the index
`sampler (readCount s)` and synthesizes the key at `offsetGet` plus that
index, where the sampling range `readCount s` is the full `numKeys` iff
`numKeys < MaxDeletes`, and is narrowed to the quarter `numKeys / 4`
exactly when `numKeys ≥ MaxDeletes` (not only when it strictly exceeds
it). -/
theorem read_range_narrowing :
    ∀ (s : RecordStore) (sampler : Nat → Nat) (draw now : Nat),
      0 < s.numKeys →
      (s.getRecord sampler draw now).2.currGet = sampler s.readCount ∧
      (s.getRecord sampler draw now).1 =
        some ⟨NewRandomKey (s.offsetGet + sampler s.readCount), none⟩ ∧
      (s.readCount = s.numKeys ↔ s.numKeys < MaxDeletes) ∧
      (MaxDeletes ≤ s.numKeys → s.readCount = s.numKeys / 4) := by
  intro s sampler draw now h
  have hq : MaxDeletes ≤ s.numKeys → s.readCount = s.numKeys / 4 := by
    intro hge
    rw [RecordStore.readCount, if_pos hge, Nat.shiftRight_eq_div_pow]
  have hMD : MaxDeletes = 10000 := rfl
  refine ⟨?_, ?_, ?_, hq⟩
  · simp [RecordStore.getRecord, h]
  · simp [RecordStore.getRecord, h]
  · constructor
    · intro he
      by_contra hlt
      push_neg at hlt
      rw [hq hlt] at he
      omega
    · intro hlt
      rw [RecordStore.readCount, if_neg (by omega)]

/-- Witness for C5 at a concrete preloaded store of 100 keys. -/
theorem read_range_narrowing_witness :
    0 < (preloadStore 100 0 5).numKeys ∧
      ((preloadStore 100 0 5).getRecord (fun n => n) 0 0).2.currGet =
        (fun n : Nat => n) (preloadStore 100 0 5).readCount ∧
      ((preloadStore 100 0 5).getRecord (fun n => n) 0 0).1 =
        some ⟨NewRandomKey ((preloadStore 100 0 5).offsetGet +
          (fun n : Nat => n) (preloadStore 100 0 5).readCount), none⟩ ∧
      ((preloadStore 100 0 5).readCount = (preloadStore 100 0 5).numKeys ↔
        (preloadStore 100 0 5).numKeys < MaxDeletes) ∧
      (MaxDeletes ≤ (preloadStore 100 0 5).numKeys →
        (preloadStore 100 0 5).readCount = (preloadStore 100 0 5).numKeys / 4) :=
  ⟨by decide, read_range_narrowing (preloadStore 100 0 5) (fun n => n) 0 0
    (by decide)⟩

/-- C6 counterexample: with target rate `R = 3` requests per second, `k = 10`
requests and zero elapsed time, the slept duration is `3333333330` ns — not
the claim's exact `k/R = (10/3) s = 3333333333.3` ns — because the code
computes `k * (1 s / R)` with truncated integer division of nanoseconds. -/
theorem checkSpeed_rounding_cex :
    checkSpeedDelay 3 10 0 = 3333333330 ∧
      ((checkSpeedDelay 3 10 0 : ℚ) ≠ (10 : ℚ) / 3 * 1000000000) := by
  have h : checkSpeedDelay 3 10 0 = 3333333330 := by decide
  refine ⟨h, ?_⟩
  rw [h]
  norm_num

/-- C6 (corrected): the fixed-rate controller sleeps
`k * tdiv 1000000000 R - elapsed` nanoseconds (the expected duration computed
with Go's truncated integer division, which equals `k/R` only when `R`
divides one second of nanoseconds): no delay when fewer than 10 requests were
issued, the positive difference when behind schedule, zero otherwise, and
never a negative sleep. -/
theorem checkSpeed_delay_formula :
    ∀ R num elapsed : Int,
      (num < 10 → checkSpeedDelay R num elapsed = 0) ∧
      (10 ≤ num → elapsed < Int.tdiv 1000000000 R * num →
        checkSpeedDelay R num elapsed =
          Int.tdiv 1000000000 R * num - elapsed) ∧
      (10 ≤ num → Int.tdiv 1000000000 R * num ≤ elapsed →
        checkSpeedDelay R num elapsed = 0) ∧
      0 ≤ checkSpeedDelay R num elapsed := by
  intro R num elapsed
  have e : checkSpeedDelay R num elapsed =
      if num < 10 then 0
      else if 0 < Int.tdiv 1000000000 R * num - elapsed then
        Int.tdiv 1000000000 R * num - elapsed
      else 0 := rfl
  rw [e]
  refine ⟨?_, ?_, ?_, ?_⟩
  · intro h1; rw [if_pos h1]
  · intro h1 h2; rw [if_neg (by omega), if_pos (by omega)]
  · intro h1 h2; rw [if_neg (by omega), if_neg (by omega)]
  · split_ifs <;> omega

/-- Witness for C6: rate 1000 req/s, 20 requests, 1 ms elapsed. -/
theorem checkSpeed_delay_formula_witness :
    10 ≤ (20 : Int) ∧ (1000000 : Int) < Int.tdiv 1000000000 1000 * 20 ∧
      checkSpeedDelay 1000 20 1000000 = 19000000 := by
  refine ⟨by decide, by decide, ?_⟩
  have h := (checkSpeed_delay_formula 1000 20 1000000).2.1 (by decide)
    (by decide)
  rw [h]
  decide

/-- One successful `Take` on a preloaded store with no explicit records:
returns the synthesized key at `offsetDel + nextDelete`, advances the
cursor, and sets `LastDelete` iff that advance made the store
delete-exhausted. -/
theorem take_step (K g d offD offG : Nat) (b : Bool) (hK : 0 < K)
    (h1 : d < K) (h2 : d < MaxDeletes) :
    RecordStore.Take ⟨[], K, g, d, offD, offG, b⟩ 0 [] =
      (some ⟨NewRandomKey (offD + d), none⟩,
       ⟨[], K, g, d + 1, offD, offG,
        decide (K ≤ d + 1) || decide (MaxDeletes ≤ d + 1) || b⟩) := by
  have hKne : K ≠ 0 := Nat.pos_iff_ne_zero.mp hK
  by_cases hKd : K ≤ d + 1 <;> by_cases hMd : MaxDeletes ≤ d + 1 <;>
    simp [RecordStore.Take, takeLoop, RecordStore.takeRecord,
      RecordStore.empty, RecordStore.endOfDelete, Record.isExpired, hK, hKne,
      Nat.not_le.mpr h1, Nat.not_le.mpr h2, hKd, hMd]

/-- `Take` on a delete-exhausted store fails and leaves the store
unchanged. -/
theorem take_stuck (s : RecordStore) (now : Nat) (rng : List Nat)
    (h : s.endOfDelete = true) : s.Take now rng = (none, s) := by
  simp [RecordStore.Take, takeLoop, h]

/-- State reached after `n ≤ min(K, MaxDeletes)` takes on a fresh preloaded
store: the cursor is at `n` and `LastDelete` holds exactly at the bound. -/
theorem takeN_spec (K offD offG : Nat) (hK : 1 ≤ K) :
    ∀ n, n ≤ min K MaxDeletes →
      takeN K offD offG n =
        ⟨[], K, 0, n, offD, offG, decide (n = min K MaxDeletes)⟩ := by
  have hMD : MaxDeletes = 10000 := rfl
  intro n
  induction n with
  | zero =>
    intro _
    have hz : decide (0 = min K MaxDeletes) = false :=
      decide_eq_false (by omega)
    rw [takeN, preloadStore, hz]
  | succ n ih =>
    intro hn
    have h1 : n < K := by omega
    have h2 : n < MaxDeletes := by omega
    rw [takeN, ih (by omega), take_step K 0 n offD offG _ (by omega) h1 h2]
    have hne : decide (n = min K MaxDeletes) = false :=
      decide_eq_false (by omega)
    rw [hne, Bool.or_false]
    have hbool : (decide (K ≤ n + 1) || decide (MaxDeletes ≤ n + 1)) =
        decide (n + 1 = min K MaxDeletes) := by
      by_cases hK1 : K ≤ n + 1 <;> by_cases hM1 : MaxDeletes ≤ n + 1 <;>
        simp [hK1, hM1] <;> omega
    rw [hbool]

/-- Once the bound is reached, further takes change nothing: the state is
frozen at `takeN ... (min K MaxDeletes)`. -/
theorem takeN_frozen (K offD offG : Nat) (hK : 1 ≤ K) :
    ∀ n, min K MaxDeletes ≤ n →
      takeN K offD offG n = takeN K offD offG (min K MaxDeletes) := by
  have hMD : MaxDeletes = 10000 := rfl
  have hend : (takeN K offD offG (min K MaxDeletes)).endOfDelete = true := by
    rw [takeN_spec K offD offG hK _ le_rfl]
    simp only [RecordStore.endOfDelete, Bool.and_eq_true, Bool.or_eq_true,
      decide_eq_true_eq]
    omega
  intro n hn
  induction n with
  | zero =>
    have : min K MaxDeletes = 0 := by omega
    rw [this]
  | succ n ih =>
    by_cases he : min K MaxDeletes ≤ n
    · rw [takeN, ih he, take_stuck _ _ _ hend]
    · have : n + 1 = min K MaxDeletes := by omega
      rw [this]

/-- C3 (confirmed): on a fresh preloaded store with `numKeys = K ≥ 1`,
`Take` succeeds exactly `min(K, MaxDeletes)` times, handing out the
synthesized keys `offsetDel + n`; the final successful call sets the
one-shot `LastDelete` flag (false before it), and every subsequent `Take`
fails (`none` models the "no unexpired record" error) while the store
remains delete-exhausted. -/
theorem take_preloaded_exhaustion (K offD offG : Nat) (hK : 1 ≤ K) :
    (∀ n, n < min K MaxDeletes →
       ((takeN K offD offG n).Take 0 []).1 =
         some ⟨NewRandomKey (offD + n), none⟩ ∧
       (takeN K offD offG n).LastDelete = false) ∧
    (takeN K offD offG (min K MaxDeletes)).LastDelete = true ∧
    (∀ n, min K MaxDeletes ≤ n →
       ((takeN K offD offG n).Take 0 []).1 = none ∧
       (takeN K offD offG n).endOfDelete = true) := by
  have hMD : MaxDeletes = 10000 := rfl
  have hend : (takeN K offD offG (min K MaxDeletes)).endOfDelete = true := by
    rw [takeN_spec K offD offG hK _ le_rfl]
    simp only [RecordStore.endOfDelete, Bool.and_eq_true, Bool.or_eq_true,
      decide_eq_true_eq]
    omega
  refine ⟨?_, ?_, ?_⟩
  · intro n hn
    rw [takeN_spec K offD offG hK n (by omega)]
    constructor
    · rw [take_step K 0 n offD offG _ (by omega) (by omega) (by omega)]
    · exact decide_eq_false (by omega)
  · rw [takeN_spec K offD offG hK _ le_rfl]
    exact decide_eq_true rfl
  · intro n hn
    rw [takeN_frozen K offD offG hK n hn]
    exact ⟨by rw [take_stuck _ _ _ hend], hend⟩

/-- Witness for C3: `K = 2` keys at delete offset 7 — the two takes hand out
keys 7 and 8, the second sets `LastDelete`, the third fails. -/
theorem take_preloaded_exhaustion_witness :
    1 ≤ 2 ∧
      ((takeN 2 7 3 0).Take 0 []).1 = some ⟨NewRandomKey (7 + 0), none⟩ ∧
      ((takeN 2 7 3 1).Take 0 []).1 = some ⟨NewRandomKey (7 + 1), none⟩ ∧
      (takeN 2 7 3 (min 2 MaxDeletes)).LastDelete = true ∧
      ((takeN 2 7 3 2).Take 0 []).1 = none ∧
      (takeN 2 7 3 2).endOfDelete = true := by
  have h := take_preloaded_exhaustion 2 7 3 (by decide)
  have h0 := h.1 0 (by decide)
  have h1 := h.1 1 (by decide)
  have h2 := h.2.2 2 (by decide)
  exact ⟨by decide, h0.1, h1.1, h.2.1, h2.1, h2.2⟩

/-- The restoration loop produces exactly the synthesized keys
`off + 0, ..., off + (n-1)`, in order. -/
theorem restoreLoop_eq_map (off n : Nat) :
    restoreLoop off n = (List.range n).map fun i => NewRandomKey (off + i) := by
  induction n with
  | zero => rfl
  | succ n ih => simp [restoreLoop, ih, List.range_succ]

/-- The keys handed out by the first `n ≤ min(K, MaxDeletes)` takes are the
synthesized keys at `offsetDel + 0, ..., offsetDel + (n-1)`, in order. -/
theorem takeKeysN_spec (K offD offG : Nat) (hK : 1 ≤ K) :
    ∀ n, n ≤ min K MaxDeletes →
      takeKeysN K offD offG n =
        (List.range n).map fun i => NewRandomKey (offD + i) := by
  intro n
  induction n with
  | zero => intro _; rfl
  | succ n ih =>
    intro hn
    have hMD : MaxDeletes = 10000 := rfl
    rw [takeKeysN, ih (by omega), takeN_spec K offD offG hK n (by omega),
      take_step K 0 n offD offG _ (by omega) (by omega) (by omega),
      List.range_succ]
    simp

/-- C4 (confirmed): the restoration pass issues exactly `nextDelete` creates,
one per index `i ∈ [0, nextDelete)` at the synthesized key `offsetDel + i`
(in particular zero creates when `nextDelete = 0`), issues nothing in
dynamic mode (`numKeys = 0`), and after any number `n` of takes on a fresh
preloaded store its create list coincides with the keys those successful
takes handed out. -/
theorem restore_matches_taken_keys :
    (∀ s : RecordStore, 0 < s.numKeys →
       restoreKeys s =
         (List.range s.nextDelete).map (fun i => NewRandomKey (s.offsetDel + i)) ∧
       (restoreKeys s).length = s.nextDelete) ∧
    (∀ s : RecordStore, s.numKeys = 0 → restoreKeys s = []) ∧
    (∀ K offD offG n : Nat, 1 ≤ K → n ≤ min K MaxDeletes →
       restoreKeys (takeN K offD offG n) = takeKeysN K offD offG n) := by
  refine ⟨?_, ?_, ?_⟩
  · intro s hs
    have he : restoreKeys s =
        (List.range s.nextDelete).map fun i => NewRandomKey (s.offsetDel + i) := by
      rw [restoreKeys]
      rcases Nat.eq_zero_or_pos s.nextDelete with hz | hp
      · simp [hz, Nat.pos_iff_ne_zero.mp hs]
      · rw [if_neg (by simp [Nat.pos_iff_ne_zero.mp hs, Nat.pos_iff_ne_zero.mp hp]),
          restoreLoop_eq_map]
    exact ⟨he, by rw [he]; simp⟩
  · intro s hs; simp [restoreKeys, hs]
  · intro K offD offG n hK hn
    rw [takeN_spec K offD offG hK n hn, takeKeysN_spec K offD offG hK n hn,
      restoreKeys]
    rcases Nat.eq_zero_or_pos n with hz | hp
    · simp [hz]
    · rw [if_neg (by simp [Nat.pos_iff_ne_zero.mp (by omega : 0 < K),
        Nat.pos_iff_ne_zero.mp hp]), restoreLoop_eq_map]

/-- Witness for C4: after 2 takes on a 3-key preloaded store at delete
offset 7, restoration re-creates exactly keys 7 and 8. -/
theorem restore_matches_taken_keys_witness :
    0 < (takeN 3 7 0 2).numKeys ∧
      restoreKeys (takeN 3 7 0 2) =
        (List.range (takeN 3 7 0 2).nextDelete).map
          (fun i => NewRandomKey ((takeN 3 7 0 2).offsetDel + i)) ∧
      (restoreKeys (takeN 3 7 0 2)).length = (takeN 3 7 0 2).nextDelete ∧
      restoreKeys (preloadStore 0 0 0) = [] ∧
      restoreKeys (takeN 3 7 0 2) = takeKeysN 3 7 0 2 := by
  refine ⟨by decide, ?_, ?_, ?_, ?_⟩
  · exact (restore_matches_taken_keys.1 _ (by decide)).1
  · exact (restore_matches_taken_keys.1 _ (by decide)).2
  · exact restore_matches_taken_keys.2.1 _ (by decide)
  · exact restore_matches_taken_keys.2.2 3 7 0 2 (by decide) (by decide)

/-- `takeRecord` in dynamic mode on a non-empty collection: removes and
returns the drawn record. -/
theorem takeRecord_dynamic (s : RecordStore) (draw : Nat)
    (h0 : s.numKeys = 0) (hne : s.records ≠ []) :
    s.takeRecord draw =
      (some (s.records.getD (draw % s.records.length) default),
       { s with records := s.records.eraseIdx (draw % s.records.length) }) := by
  have hl : s.records.length ≠ 0 := fun hc => hne (List.length_eq_zero.mp hc)
  simp [RecordStore.takeRecord, h0, hl]

/-- Reduction of one `takeLoop` iteration when the guard passes and
`takeRecord` returns a record. -/
theorem takeLoop_step_some (now fuel : Nat) (s : RecordStore) (rng : List Nat)
    (r : Record) (t : RecordStore) (hguard : (s.empty || s.endOfDelete) = false)
    (h : s.takeRecord rng.headI = (some r, t)) :
    takeLoop now (fuel + 1) s rng =
      if r.isExpired now = true then takeLoop now fuel t rng.tail
      else if t.endOfDelete = true then (some r, { t with LastDelete := true })
      else (some r, t) := by
  rw [takeLoop, if_neg (by rw [hguard]; exact Bool.false_ne_true), h]

/-- If the take loop in dynamic mode returns the error, the collection has
been fully drained: every drawn record was removed and none was returned. -/
theorem takeLoop_none_empties (now : Nat) :
    ∀ (fuel : Nat) (s : RecordStore) (rng : List Nat), s.numKeys = 0 →
      s.records.length < fuel → (takeLoop now fuel s rng).1 = none →
      (takeLoop now fuel s rng).2.records = [] := by
  intro fuel
  induction fuel with
  | zero => intro s rng _ hlen; exact absurd hlen (Nat.not_lt_zero _)
  | succ fuel ih =>
    intro s rng h0 hlen
    by_cases hemp : (s.empty || s.endOfDelete) = true
    · rw [takeLoop, if_pos hemp]
      intro _
      have hend : s.endOfDelete = false := by
        simp [RecordStore.endOfDelete, h0]
      rw [hend, Bool.or_false] at hemp
      simpa [RecordStore.empty, h0, List.isEmpty_iff] using hemp
    · have hemp2 : (s.empty || s.endOfDelete) = false :=
        Bool.not_eq_true _ ▸ Bool.of_not_eq_true hemp
      have hne : s.records ≠ [] := by
        intro hc
        exact hemp (by simp [RecordStore.empty, h0, hc])
      rw [takeLoop_step_some now fuel s rng _ _ hemp2
        (takeRecord_dynamic s rng.headI h0 hne)]
      have hi : rng.headI % s.records.length < s.records.length :=
        Nat.mod_lt _ (List.length_pos.mpr hne)
      have hlen2 :
          (s.records.eraseIdx (rng.headI % s.records.length)).length < fuel := by
        have := List.length_eraseIdx_add_one hi
        omega
      by_cases hex :
          (s.records.getD (rng.headI % s.records.length) default).isExpired now
        = true
      · rw [if_pos hex]
        exact ih _ rng.tail h0 hlen2
      · rw [if_neg hex]
        intro hcon
        split at hcon <;> simp at hcon

/-- C10 (confirmed): in dynamic mode, whenever `Take` returns the "no
unexpired record" error, the store has been left empty — each record the
failed call drew on the way was removed from the collection even though
none was returned. -/
theorem take_error_empties_store :
    ∀ (s : RecordStore) (now : Nat) (rng : List Nat), s.numKeys = 0 →
      (s.Take now rng).1 = none → (s.Take now rng).2.records = [] := by
  intro s now rng h0
  exact takeLoop_none_empties now (s.records.length + 1) s rng h0
    (Nat.lt_succ_self _)

/-- Witness for C10: a one-record dynamic store whose record is expired —
`Take` fails and the store is empty afterwards. -/
theorem take_error_empties_store_witness :
    (RecordStore.numKeys ⟨[⟨[1], some ⟨0, 0⟩⟩], 0, 0, 0, 0, 0, false⟩ = 0) ∧
      (RecordStore.Take ⟨[⟨[1], some ⟨0, 0⟩⟩], 0, 0, 0, 0, 0, false⟩ 5 []).1 =
        none ∧
      (RecordStore.Take ⟨[⟨[1], some ⟨0, 0⟩⟩], 0, 0, 0, 0, 0, false⟩
        5 []).2.records = [] := by
  refine ⟨by decide, by decide, ?_⟩
  exact take_error_empties_store ⟨[⟨[1], some ⟨0, 0⟩⟩], 0, 0, 0, 0, 0, false⟩
    5 [] (by decide) (by decide)

/-- `takeRecord` preserves the delete-cursor invariant: the preloaded branch
only advances the cursor under the not-exhausted guard, the dynamic branch
does not touch it. -/
theorem takeRecord_delInv (N : Nat) (s : RecordStore) (draw : Nat)
    (h : DelInv N s) : DelInv N (s.takeRecord draw).2 := by
  obtain ⟨hN, hd⟩ := h
  have hMD : MaxDeletes = 10000 := rfl
  rw [RecordStore.takeRecord]
  by_cases h1 : 0 < s.numKeys
  · rw [if_pos h1]
    by_cases h2 : s.endOfDelete = true
    · rw [if_pos h2]
      exact ⟨hN, hd⟩
    · rw [if_neg h2]
      refine ⟨hN, ?_⟩
      simp only [RecordStore.endOfDelete, Bool.and_eq_true, Bool.or_eq_true,
        decide_eq_true_eq, not_and_or, not_or, not_lt, Nat.not_le] at h2
      show s.nextDelete + 1 ≤ min N MaxDeletes
      omega
  · rw [if_neg h1]
    show DelInv N (if s.records.length = 0 then (none, s)
      else (some (s.records.getD (draw % s.records.length) default),
        { s with records := s.records.eraseIdx (draw % s.records.length) })).2
    split_ifs <;> exact ⟨hN, hd⟩

/-- `getRecord` never changes `numKeys` or `nextDelete`. -/
theorem getRecord_delInv (N : Nat) (s : RecordStore) (sampler : Nat → Nat)
    (draw now : Nat) (h : DelInv N s) :
    DelInv N (s.getRecord sampler draw now).2 := by
  obtain ⟨hN, hd⟩ := h
  rw [RecordStore.getRecord]
  by_cases h1 : 0 < s.numKeys
  · rw [if_pos h1]
    exact ⟨hN, hd⟩
  · rw [if_neg h1]
    show DelInv N (if s.records.length = 0 then (none, s)
      else if (s.records.getD (draw % s.records.length)
          default).isExpired now = true then
        (none, { s with records := s.records.eraseIdx (draw % s.records.length) })
      else (some (s.records.getD (draw % s.records.length) default), s)).2
    split_ifs <;> exact ⟨hN, hd⟩

/-- The take loop preserves the delete-cursor invariant for any fuel. -/
theorem takeLoop_delInv (N now : Nat) :
    ∀ (fuel : Nat) (s : RecordStore) (rng : List Nat), DelInv N s →
      DelInv N (takeLoop now fuel s rng).2 := by
  intro fuel
  induction fuel with
  | zero => intro s rng h; exact h
  | succ fuel ih =>
    intro s rng h
    rw [takeLoop]
    split_ifs with h1
    · exact h
    · rcases htr : s.takeRecord rng.headI with ⟨ro, t⟩
      have ht : DelInv N t := by
        have := takeRecord_delInv N s rng.headI h
        rw [htr] at this
        exact this
      cases ro with
      | none => exact ih t rng.tail ht
      | some r =>
        simp only []
        split_ifs with h2 h3
        · exact ih t rng.tail ht
        · exact ⟨ht.1, ht.2⟩
        · exact ht

/-- The get loop preserves the delete-cursor invariant for any fuel. -/
theorem getLoop_delInv (N now : Nat) (sampler : Nat → Nat) :
    ∀ (fuel : Nat) (s : RecordStore) (rng : List Nat), DelInv N s →
      DelInv N (getLoop sampler now fuel s rng).2 := by
  intro fuel
  induction fuel with
  | zero => intro s rng h; exact h
  | succ fuel ih =>
    intro s rng h
    rw [getLoop]
    split_ifs with h1
    · exact h
    · rcases hgr : s.getRecord sampler rng.headI now with ⟨ro, t⟩
      have ht : DelInv N t := by
        have := getRecord_delInv N s sampler rng.headI now h
        rw [hgr] at this
        exact this
      cases ro with
      | none => exact ih t rng.tail ht
      | some r => exact ht

/-- Every store operation issued by the engine preserves the delete-cursor
invariant. -/
theorem applyOp_delInv (N : Nat) (s : RecordStore) (op : StoreOp)
    (h : DelInv N s) : DelInv N (applyOp s op) := by
  cases op with
  | add r =>
    rw [applyOp, RecordStore.Add]
    split_ifs <;> exact ⟨h.1, h.2⟩
  | get sampler now rng => exact getLoop_delInv N now sampler _ s rng h
  | take now rng => exact takeLoop_delInv N now _ s rng h

/-- C9 (confirmed): starting from any preloaded store with `nextDelete = 0`,
after every sequence of `Add`, `Get` and `Take` operations the cursor
satisfies `nextDelete ≤ min(numKeys, MaxDeletes)`; moreover a `Take`
advances `nextDelete` (by exactly one) when the store is not yet
delete-exhausted, and leaves it unchanged when it is. -/
theorem nextDelete_invariant :
    (∀ s0 : RecordStore, 0 < s0.numKeys → s0.nextDelete = 0 →
       ∀ ops : List StoreOp,
         (ops.foldl applyOp s0).nextDelete ≤ min s0.numKeys MaxDeletes) ∧
    (∀ (s : RecordStore) (now : Nat) (rng : List Nat), 0 < s.numKeys →
       ((s.endOfDelete = false →
           (s.Take now rng).2.nextDelete = s.nextDelete + 1) ∧
        (s.endOfDelete = true →
           (s.Take now rng).2.nextDelete = s.nextDelete))) := by
  constructor
  · intro s0 h0 hd ops
    have hinv : DelInv s0.numKeys (ops.foldl applyOp s0) := by
      have hbase : DelInv s0.numKeys s0 := ⟨rfl, by omega⟩
      clear h0 hd
      induction ops generalizing s0 with
      | nil => exact hbase
      | cons op rest ih =>
        rw [List.foldl_cons]
        have hstep := applyOp_delInv s0.numKeys s0 op hbase
        have := ih (applyOp s0 op)
        rw [hstep.1] at this
        exact this hstep
    exact hinv.2
  · intro s now rng hK
    constructor
    · intro hend
      have hne : s.empty = false := by
        simp [RecordStore.empty, Nat.pos_iff_ne_zero.mp hK]
      have hguard : (s.empty || s.endOfDelete) = false := by
        rw [hne, hend]
        rfl
      have htr : s.takeRecord rng.headI =
          (some ⟨NewRandomKey (s.offsetDel + s.nextDelete), none⟩,
           { s with nextDelete := s.nextDelete + 1 }) := by
        rw [RecordStore.takeRecord, if_pos hK, if_neg]
        rw [hend]
        exact Bool.false_ne_true
      rw [RecordStore.Take,
        takeLoop_step_some now s.records.length s rng _ _ hguard htr]
      have hexp : Record.isExpired
          ⟨NewRandomKey (s.offsetDel + s.nextDelete), none⟩ now = false := rfl
      rw [if_neg (hexp ▸ Bool.false_ne_true)]
      split_ifs <;> rfl
    · intro hend
      rw [take_stuck s now rng hend]

/-- Witness for C9: a fresh 2-key preloaded store, three takes then a get
and an add — the cursor stays at the bound 2; a single take from the fresh
store advances the cursor to 1. -/
theorem nextDelete_invariant_witness :
    0 < (preloadStore 2 5 6).numKeys ∧ (preloadStore 2 5 6).nextDelete = 0 ∧
      (([StoreOp.take 0 [], StoreOp.take 0 [], StoreOp.take 0 [],
          StoreOp.get (fun n => n) 0 [], StoreOp.add ⟨[2], none⟩].foldl applyOp
            (preloadStore 2 5 6)).nextDelete ≤
        min (preloadStore 2 5 6).numKeys MaxDeletes) ∧
      (preloadStore 2 5 6).endOfDelete = false ∧
      ((preloadStore 2 5 6).Take 0 []).2.nextDelete =
        (preloadStore 2 5 6).nextDelete + 1 := by
  refine ⟨by decide, by decide, ?_, by decide, ?_⟩
  · exact nextDelete_invariant.1 (preloadStore 2 5 6) (by decide) (by decide) _
  · exact ((nextDelete_invariant.2 (preloadStore 2 5 6) 0 []) (by decide)).1
      (by decide)

/-- The cumulative behaviour of the run-loop error counter: starting from
`errCount = ec ≤ 100` on a cancel-free trace, the run aborts exactly when
`ec` plus the number of failures in the trace exceeds 100, and an aborting
run records exactly `101 - ec` further failures and never reaches the
restoration pass. -/
theorem runLoop_cumulative (evs : List RunEv) :
    ∀ ec rf : Nat, RunEv.cancel ∉ evs → ec ≤ 100 →
      (((runLoop true evs ec rf).aborted = true ↔
         100 < ec + failCount evs) ∧
       ((runLoop true evs ec rf).aborted = true →
         (runLoop true evs ec rf).recFails = rf + (101 - ec) ∧
         (runLoop true evs ec rf).restored = false)) := by
  induction evs with
  | nil =>
    intro ec rf _ hec
    simp [runLoop, failCount]
    omega
  | cons e rest ih =>
    intro ec rf hc hec
    cases e with
    | cancel => exact absurd (List.mem_cons_self _ _) hc
    | op failed =>
      have hc2 : RunEv.cancel ∉ rest := fun h => hc (List.mem_cons_of_mem _ h)
      cases failed with
      | false =>
        have hfc : failCount (.op false :: rest) = failCount rest := by
          simp [failCount]
        rw [show runLoop true (.op false :: rest) ec rf =
            runLoop true rest ec rf from rfl, hfc]
        exact ih ec rf hc2 hec
      | true =>
        have hfc : failCount (.op true :: rest) = failCount rest + 1 := by
          simp [failCount, List.countP_cons]
        by_cases h100 : 100 < ec + 1
        · have hec100 : ec = 100 := by omega
          rw [show runLoop true (.op true :: rest) ec rf =
              ⟨rf + 1, true, false⟩ from by
            rw [runLoop]; simp [h100], hfc]
          refine ⟨by constructor <;> intro <;> first | rfl | omega, ?_⟩
          intro _
          refine ⟨by simp; omega, rfl⟩
        · rw [show runLoop true (.op true :: rest) ec rf =
              runLoop true rest (ec + 1) (rf + 1) from by
            rw [runLoop]; simp [h100], hfc]
          have := ih (ec + 1) (rf + 1) hc2 (by omega)
          refine ⟨by rw [this.1]; omega, ?_⟩
          intro hab
          obtain ⟨h1, h2⟩ := this.2 hab
          exact ⟨by omega, h2⟩

/-- C1 counterexample: on the trace of 100 recorded failures, one success,
then one more failure, the code aborts — `errCount` is cumulative and never
reset — whereas the claim's semantics (a consecutive counter reset by every
success, aborting only when the consecutive count exceeds 100,
`runLoopConsec`) does not abort, since no consecutive run of failures
exceeds 100. -/
theorem run_reset_on_success_cex :
    (RunGo true (List.replicate 100 (RunEv.op true) ++
      [RunEv.op false, RunEv.op true])).aborted = true ∧
      (RunConsec true (List.replicate 100 (RunEv.op true) ++
        [RunEv.op false, RunEv.op true])).aborted = false := by
  decide

/-- C1 (corrected): the error counter of `TestEngine.Run` with a preloaded
store is cumulative — every recorded failure increments it and a success
does NOT reset it — so on a cancel-free trace the run aborts iff the total
number of recorded failures exceeds 100, an aborting run has recorded
exactly 101 failures, and the abort returns without the restoration pass.
In particular an always-failing client still stops the run after exactly
101 recorded failures. -/
theorem run_circuit_breaker_cumulative :
    ∀ evs : List RunEv, RunEv.cancel ∉ evs →
      (((RunGo true evs).aborted = true ↔ 100 < failCount evs) ∧
       ((RunGo true evs).aborted = true →
         (RunGo true evs).recFails = 101 ∧
         (RunGo true evs).restored = false)) := by
  intro evs hc
  have h := runLoop_cumulative evs 0 0 hc (by omega)
  show ((runLoop true evs 0 0).aborted = true ↔ 100 < failCount evs) ∧
      ((runLoop true evs 0 0).aborted = true →
        (runLoop true evs 0 0).recFails = 101 ∧
        (runLoop true evs 0 0).restored = false)
  refine ⟨?_, ?_⟩
  · rw [h.1]
    omega
  · intro hab
    obtain ⟨h1, h2⟩ := h.2 hab
    refine ⟨?_, h2⟩
    omega

set_option maxRecDepth 4000 in
/-- Witness for C1: an always-failing client (101 recorded failures, no
cancellation) aborts the run with exactly 101 recorded failures and no
restoration pass. -/
theorem run_circuit_breaker_cumulative_witness :
    RunEv.cancel ∉ List.replicate 101 (RunEv.op true) ∧
      (RunGo true (List.replicate 101 (RunEv.op true))).aborted = true ∧
      (RunGo true (List.replicate 101 (RunEv.op true))).recFails = 101 ∧
      (RunGo true (List.replicate 101 (RunEv.op true))).restored = false := by
  have hmem : RunEv.cancel ∉ List.replicate 101 (RunEv.op true) := by decide
  have h := run_circuit_breaker_cumulative (List.replicate 101 (RunEv.op true))
    hmem
  have hab : (RunGo true (List.replicate 101 (RunEv.op true))).aborted = true :=
    h.1.mpr (by decide)
  exact ⟨hmem, hab, (h.2 hab).1, (h.2 hab).2⟩

/-- C8 (confirmed): for every positive range `n` and every uniform draw
`m ∈ [1, n]`, the skew sampler transform
`n - 1 - trunc(n * ln(m) / ln(n+1))` lands in `[0, n)` (the `float64`
computation is idealized over the reals; Go truncation coincides with the
floor here because the truncated operand is non-negative). -/
theorem expRand_in_range :
    ∀ n m : Nat, 1 ≤ n → 1 ≤ m → m ≤ n →
      0 ≤ expRandZ n m ∧ expRandZ n m < (n : ℤ) := by
  intro n m hn hm hmn
  have hn1 : (1 : ℝ) < (n : ℝ) + 1 := by
    have h1 : (1 : ℝ) ≤ (n : ℝ) := by exact_mod_cast hn
    linarith
  have hL : 0 < Real.log ((n : ℝ) + 1) := Real.log_pos hn1
  have hm1 : (1 : ℝ) ≤ (m : ℝ) := by exact_mod_cast hm
  have hlm : 0 ≤ Real.log (m : ℝ) := Real.log_nonneg hm1
  have hmn2 : (m : ℝ) ≤ (n : ℝ) := by exact_mod_cast hmn
  have hn0 : (0 : ℝ) < (n : ℝ) := by
    have h1 : (1 : ℝ) ≤ (n : ℝ) := by exact_mod_cast hn
    linarith
  have hlog_lt : Real.log (m : ℝ) < Real.log ((n : ℝ) + 1) := by
    calc Real.log (m : ℝ) ≤ Real.log (n : ℝ) :=
          Real.log_le_log (by linarith) hmn2
      _ < Real.log ((n : ℝ) + 1) := Real.log_lt_log hn0 (by linarith)
  set y := (n : ℝ) * Real.log (m : ℝ) / Real.log ((n : ℝ) + 1) with hy
  have hy0 : 0 ≤ y := div_nonneg (mul_nonneg hn0.le hlm) hL.le
  have hyn : y < (n : ℝ) := by
    rw [hy, div_lt_iff₀ hL]
    exact mul_lt_mul_of_pos_left hlog_lt hn0
  have hfl0 : 0 ≤ ⌊y⌋ := Int.floor_nonneg.mpr hy0
  have hfln : ⌊y⌋ < (n : ℤ) := by
    rw [Int.floor_lt]
    push_cast
    exact hyn
  have hg : goTrunc y = ⌊y⌋ := by rw [goTrunc, if_pos hy0]
  have he : expRandZ n m = (n : ℤ) - 1 - ⌊y⌋ := by
    rw [expRandZ, ← hy, hg]
  rw [he]
  omega

/-- Witness for C8 at `n = 3`, `m = 2`. -/
theorem expRand_in_range_witness :
    1 ≤ 3 ∧ 1 ≤ 2 ∧ 2 ≤ 3 ∧ 0 ≤ expRandZ 3 2 ∧ expRandZ 3 2 < (3 : ℤ) := by
  have h := expRand_in_range 3 2 (by decide) (by decide) (by decide)
  exact ⟨by decide, by decide, by decide, h.1, h.2⟩

end Junoload
